import Mathlib

/-!
Verification of the AutoFileSort classification & safe-move engine.

The Python sources (src/autofile/config.py, src/autofile/sorter.py,
src/main.py) are shallowly embedded below.  Python strings are modelled
as `List Char` (`Str`); `str.lower()` is modelled on the ASCII fragment
(`Char.toLower`), `str.strip()` strips the four ASCII whitespace
characters recognised by `Char.isWhitespace`.
-/

namespace AutoFileSort

/-- Characters of a Python string. -/
abbrev Str := List Char

/-- Shorthand turning a Lean string literal into the `Str` model. -/
def str (s : String) : Str := s.data

/-- Python `str.strip()`: drop whitespace from both ends. -/
def pyStrip (s : Str) : Str :=
  ((s.dropWhile Char.isWhitespace).reverse.dropWhile Char.isWhitespace).reverse

/-- Python `str.lower()` (ASCII fragment). -/
def pyLower (s : Str) : Str := s.map Char.toLower

/-- One pass of the loop body of `_normalize_extensions`
(config.py lines 89-95): strip, lowercase, drop empties, ensure a
leading dot. `none` models the `continue` branch. -/
def normalizeExtOne (raw : Str) : Option Str :=
  let ext := pyLower (pyStrip raw)
  if ext = [] then none
  else if ext.head? = some '.' then some ext
  else some ('.' :: ext)

/-- `_normalize_extensions` (config.py lines 76-96). -/
def normalizeExtensions (items : List Str) : List Str :=
  items.filterMap normalizeExtOne

/-- A string that begins with exactly one dot (the spec's reading of
"single leading dot"). -/
def oneLeadingDot (s : Str) : Prop :=
  s.head? = some '.' ∧ (s.drop 1).head? ≠ some '.'

instance (s : Str) : Decidable (oneLeadingDot s) := by
  unfold oneLeadingDot; infer_instance

/-- A string all of whose characters are fixed by lowercasing. -/
def loweredStr (s : Str) : Prop := pyLower s = s

instance (s : Str) : Decidable (loweredStr s) := by
  unfold loweredStr; infer_instance

example : normalizeExtensions [str " .PdF ", str "", str "txt"] =
    [str ".pdf", str ".txt"] := by decide

example : normalizeExtensions [str "..txt"] = [str "..txt"] := by decide

example : ¬ oneLeadingDot (str "..txt") := by decide

theorem toLower_eq (c : Char) :
    Char.toLower c =
      if 65 ≤ c.toNat ∧ c.toNat ≤ 90 then Char.ofNat (c.toNat + 32) else c := rfl

theorem toLower_fix_of_shift :
    ∀ n < 91, 65 ≤ n →
      Char.toLower (Char.ofNat (n + 32)) = Char.ofNat (n + 32) := by decide

theorem isWhitespace_ofNat_shift :
    ∀ n < 91, 65 ≤ n → (Char.ofNat (n + 32)).isWhitespace = false := by decide

theorem toLower_idem (c : Char) : (Char.toLower c).toLower = Char.toLower c := by
  rw [toLower_eq c]
  by_cases h : 65 ≤ c.toNat ∧ c.toNat ≤ 90
  · rw [if_pos h]
    exact toLower_fix_of_shift c.toNat (by omega) h.1
  · rw [if_neg h, toLower_eq c, if_neg h]

theorem isWhitespace_toLower (c : Char) :
    (Char.toLower c).isWhitespace = c.isWhitespace := by
  rw [toLower_eq c]
  by_cases h : 65 ≤ c.toNat ∧ c.toNat ≤ 90
  · rw [if_pos h, isWhitespace_ofNat_shift c.toNat (by omega) h.1]
    have hs : c.isWhitespace = false := by
      simp only [Char.isWhitespace, Bool.or_eq_false_iff, decide_eq_false_iff_not]
      refine ⟨⟨⟨?_, ?_⟩, ?_⟩, ?_⟩ <;> intro hc <;> subst hc <;>
        exact absurd h (by decide)
    rw [hs]
  · rw [if_neg h]

theorem pyLower_idem (s : Str) : pyLower (pyLower s) = pyLower s := by
  unfold pyLower
  rw [List.map_map]
  exact List.map_congr_left fun c _ => toLower_idem c

theorem dropWhile_eq_self_of_head (p : Char → Bool) (s : Str)
    (h : ∀ c, s.head? = some c → p c = false) : s.dropWhile p = s := by
  cases s with
  | nil => rfl
  | cons a l => simp [List.dropWhile_cons, h a rfl]

theorem head_dropWhile_false (p : Char → Bool) (l : Str) :
    ∀ c, (l.dropWhile p).head? = some c → p c = false := by
  induction l with
  | nil => intro c h; simp at h
  | cons a l ih =>
    intro c h
    by_cases hp : p a
    · rw [List.dropWhile_cons, if_pos hp] at h
      exact ih c h
    · rw [List.dropWhile_cons, if_neg hp] at h
      cases h
      exact Bool.of_not_eq_true hp

theorem pyStrip_eq_self (s : Str)
    (h1 : ∀ c, s.head? = some c → c.isWhitespace = false)
    (h2 : ∀ c, s.getLast? = some c → c.isWhitespace = false) : pyStrip s = s := by
  unfold pyStrip
  rw [dropWhile_eq_self_of_head _ s h1]
  rw [dropWhile_eq_self_of_head _ s.reverse (by
    intro c hc
    rw [List.head?_reverse] at hc
    exact h2 c hc)]
  exact List.reverse_reverse s

theorem getLast_pyStrip_not_ws (raw : Str) :
    ∀ c, (pyStrip raw).getLast? = some c → c.isWhitespace = false := by
  intro c hc
  unfold pyStrip at hc
  rw [List.getLast?_reverse] at hc
  exact head_dropWhile_false _ _ c hc

theorem getLast_pyLower (s : Str) :
    (pyLower s).getLast? = (s.getLast?).map Char.toLower := by
  unfold pyLower
  exact List.getLast?_map Char.toLower s

theorem getLast_lowstrip_not_ws (raw : Str) :
    ∀ c, (pyLower (pyStrip raw)).getLast? = some c → c.isWhitespace = false := by
  intro c hc
  rw [getLast_pyLower] at hc
  match hlast : (pyStrip raw).getLast? with
  | none => rw [hlast] at hc; exact Option.noConfusion hc
  | some c0 =>
    rw [hlast] at hc
    cases Option.some.inj hc
    rw [isWhitespace_toLower]
    exact getLast_pyStrip_not_ws raw c0 hlast

/-- Every string produced by `normalizeExtOne` is non-empty, fixed under
lowercasing and stripping, and starts with a dot. -/
theorem normalizeExtOne_shape (raw e : Str) (h : normalizeExtOne raw = some e) :
    e ≠ [] ∧ pyLower e = e ∧ e.head? = some '.' ∧ pyStrip e = e := by
  unfold normalizeExtOne at h
  by_cases hemp : pyLower (pyStrip raw) = []
  · rw [if_pos hemp] at h; cases h
  · rw [if_neg hemp] at h
    have hlow : pyLower (pyLower (pyStrip raw)) = pyLower (pyStrip raw) :=
      pyLower_idem (pyStrip raw)
    have hlast := getLast_lowstrip_not_ws raw
    by_cases hdot : (pyLower (pyStrip raw)).head? = some '.'
    · rw [if_pos hdot] at h
      cases h
      refine ⟨hemp, hlow, hdot, ?_⟩
      refine pyStrip_eq_self _ ?_ hlast
      intro c hc
      rw [hdot] at hc
      cases hc
      decide
    · rw [if_neg hdot] at h
      cases h
      refine ⟨by simp, ?_, rfl, ?_⟩
      · have hcons : pyLower ('.' :: pyLower (pyStrip raw)) =
            Char.toLower '.' :: pyLower (pyLower (pyStrip raw)) := rfl
        have hdotlow : Char.toLower '.' = '.' := by decide
        rw [hcons, hlow, hdotlow]
      · refine pyStrip_eq_self _ ?_ ?_
        · intro c hc
          cases hc
          decide
        · intro c hc
          match hext : pyLower (pyStrip raw), hemp with
          | b :: l, _ =>
            rw [hext] at hc
            rw [List.getLast?_cons_cons] at hc
            rw [hext] at hlast
            exact hlast c hc

/-- A `filterMap` whose function fixes every list element is the identity. -/
theorem filterMap_id_of_fix {α : Type} (f : α → Option α) (l : List α)
    (h : ∀ e ∈ l, f e = some e) : l.filterMap f = l := by
  induction l with
  | nil => rfl
  | cons a l ih =>
    rw [List.filterMap_cons, h a (List.mem_cons_self a l)]
    rw [ih fun e he => h e (List.mem_cons_of_mem a he)]

theorem normalizeExtensions_mem (items : List Str) :
    ∀ e ∈ normalizeExtensions items,
      e ≠ [] ∧ pyLower e = e ∧ e.head? = some '.' ∧ pyStrip e = e := by
  intro e he
  unfold normalizeExtensions at he
  obtain ⟨raw, _, hr⟩ := List.mem_filterMap.mp he
  exact normalizeExtOne_shape raw e hr

theorem normalizeExtOne_fix (e : Str) (h1 : e ≠ []) (h2 : pyLower e = e)
    (h3 : e.head? = some '.') (h4 : pyStrip e = e) :
    normalizeExtOne e = some e := by
  unfold normalizeExtOne
  rw [h4, h2, if_neg h1, if_pos h3]

theorem normalizeExtensions_fix (items : List Str) :
    normalizeExtensions (normalizeExtensions items) = normalizeExtensions items := by
  refine filterMap_id_of_fix _ _ ?_
  intro e he
  obtain ⟨h1, h2, h3, h4⟩ := normalizeExtensions_mem items e he
  exact normalizeExtOne_fix e h1 h2 h3 h4

/-- C7: the claim that every extension produced by `_normalize_extensions`
begins with exactly one leading dot is false: an input already carrying two
dots, such as "..txt", is returned unchanged. -/
theorem c7_counterexample :
    ¬ (∀ (items : List Str), ∀ e ∈ normalizeExtensions items,
        e ≠ [] ∧ loweredStr e ∧ oneLeadingDot e) := by
  intro h
  exact absurd (h [str "..txt"] (str "..txt") (by decide)).2.2 (by decide)

/-- C7 (amended): every extension produced by `_normalize_extensions`
(config.py lines 76-96) is non-empty, entirely lowercase, and begins with a
leading dot — at least one, not always exactly one. -/
theorem c7_normalize_output_shape (items : List Str) :
    ∀ e ∈ normalizeExtensions items,
      e ≠ [] ∧ loweredStr e ∧ e.head? = some '.' := by
  intro e he
  obtain ⟨h1, h2, h3, _⟩ := normalizeExtensions_mem items e he
  exact ⟨h1, h2, h3⟩

/-- C7 witness: the amended claim evaluated on the concrete input ["TXT"]. -/
theorem c7_normalize_output_shape_witness :
    str ".txt" ≠ [] ∧ loweredStr (str ".txt") ∧ (str ".txt").head? = some '.' :=
  c7_normalize_output_shape [str "TXT"] (str ".txt") (by decide)

/-- C8: `_normalize_extensions` is idempotent — applying it to its own
output returns that output unchanged, and each already-normalized
extension is kept as it is. -/
theorem c8_normalize_idempotent (items : List Str) :
    normalizeExtensions (normalizeExtensions items) = normalizeExtensions items ∧
    ∀ e ∈ normalizeExtensions items, normalizeExtOne e = some e := by
  refine ⟨normalizeExtensions_fix items, ?_⟩
  intro e he
  obtain ⟨h1, h2, h3, h4⟩ := normalizeExtensions_mem items e he
  exact normalizeExtOne_fix e h1 h2 h3 h4

/-- C8 witness: idempotence evaluated on the concrete input [" .PdF ", "txt"]. -/
theorem c8_normalize_idempotent_witness :
    normalizeExtensions (normalizeExtensions [str " .PdF ", str "txt"]) =
      normalizeExtensions [str " .PdF ", str "txt"] ∧
    ∀ e ∈ normalizeExtensions [str " .PdF ", str "txt"],
      normalizeExtOne e = some e :=
  c8_normalize_idempotent [str " .PdF ", str "txt"]

/-- config.py lines 12-63: the built-in default category table. -/
def DEFAULT_FILE_TYPES : List (String × List Str) :=
  [("Docs", [str ".pdf", str ".docx", str ".xlsx", str ".pptx", str ".txt",
             str ".csv", str ".dotx", str ".doc", str ".ppt", str ".potx",
             str ".text"]),
   ("Media", [str ".jpg", str ".jpeg", str ".png", str ".gif", str ".mp4",
              str ".mov", str ".mp3", str ".wav", str ".webm", str ".svg",
              str ".webp", str ".ico", str ".m4a"]),
   ("Archives", [str ".zip", str ".rar", str ".tar", str ".gz", str ".7z"]),
   ("Programs", [str ".exe", str ".msi", str ".dmg", str ".pkg", str ".sh",
                 str ".iso"]),
   ("Development", [str ".py", str ".js", str ".html", str ".css", str ".cpp",
                    str ".java", str ".sh", str ".ipynb", str ".json",
                    str ".md", str ".m", str ".drawio", str ".ts", str ".log",
                    str ".apk", str ".db", str ".sqlite", str ".sql"])]

/-- config.py lines 66-73: default skip extensions. -/
def DEFAULT_SKIP_EXTENSIONS : List Str :=
  [str ".tmp", str ".crdownload", str ".part", str ".download",
   str ".!ut", str ".ini"]

/-- A JSON value sitting under a top-level key of the configuration file,
as far as load_config inspects it: an array (items already passed through
str()), a string, an object (iterating it yields its keys), or a
non-iterable atom (number, boolean, null). -/
inductive JVal where
  | jlist (items : List Str)
  | jstr (chars : Str)
  | jobj (keys : List Str)
  | jatom
  deriving DecidableEq

/-- What load_config can encounter: an unreadable file, malformed content
(unparsable JSON or a root that is not an object), or a parsed top-level
object with distinct keys. -/
inductive ConfigSrc where
  | missing
  | malformed
  | parsed (data : List (String × JVal))

/-- Python dict lookup on the parsed top-level object. -/
def lookupKey (data : List (String × JVal)) (k : String) : Option JVal :=
  (data.find? fun p => p.1 = k).map Prod.snd

/-- Iterating a JSON value inside `_normalize_extensions`: arrays yield
their items, strings yield their characters, objects yield their keys,
and atoms raise a TypeError (`none`). -/
def skipItems : JVal → Option (List Str)
  | .jlist items => some items
  | .jstr cs => some (cs.map fun c => [c])
  | .jobj keys => some keys
  | .jatom => none

/-- config.py lines 121-127: collect non-reserved keys whose value is a
list, normalizing each extension list. -/
def categoriesOf (data : List (String × JVal)) : List (String × List Str) :=
  data.filterMap fun p =>
    if p.1 = "SkipExtensions" ∨ p.1 = "_meta" then none
    else match p.2 with
      | .jlist items => some (p.1, normalizeExtensions items)
      | _ => none

/-- The pair returned by the `except` branch of load_config
(config.py lines 133-141). The Python skip set is modelled by the
normalized list; only membership matters. -/
def defaultsPair : List (String × List Str) × List Str :=
  (DEFAULT_FILE_TYPES, normalizeExtensions DEFAULT_SKIP_EXTENSIONS)

/-- `load_config` (config.py lines 99-141). A missing or malformed file,
and a TypeError while iterating a non-iterable SkipExtensions value, land
in the `except` branch; otherwise the parsed data is used, with the
default category table substituted when no category key parses. -/
def load_config : ConfigSrc → List (String × List Str) × List Str
  | .missing => defaultsPair
  | .malformed => defaultsPair
  | .parsed data =>
    match skipItems ((lookupKey data "SkipExtensions").getD
        (.jlist DEFAULT_SKIP_EXTENSIONS)) with
    | none => defaultsPair
    | some rawSkip =>
      let cats := categoriesOf data
      (if cats = [] then DEFAULT_FILE_TYPES else cats,
       normalizeExtensions rawSkip)

theorem categoriesOf_mem (data : List (String × JVal)) :
    ∀ p ∈ categoriesOf data, normalizeExtensions p.2 = p.2 := by
  intro p hp
  unfold categoriesOf at hp
  obtain ⟨q, _, hfq⟩ := List.mem_filterMap.mp hp
  by_cases hres : q.1 = "SkipExtensions" ∨ q.1 = "_meta"
  · rw [if_pos hres] at hfq
    exact Option.noConfusion hfq
  · rw [if_neg hres] at hfq
    obtain ⟨k, v⟩ := q
    cases v with
    | jlist items =>
      cases Option.some.inj hfq
      exact normalizeExtensions_fix items
    | jstr cs => exact Option.noConfusion hfq
    | jobj keys => exact Option.noConfusion hfq
    | jatom => exact Option.noConfusion hfq

/-- The parsed object used to refute C9: it carries a custom skip list and
defines no category. -/
def c9data : List (String × JVal) := [("SkipExtensions", JVal.jlist [str "foo"])]

/-- C9 counterexample: on a parsed configuration whose category set is
empty but which carries its own SkipExtensions, load_config keeps the
file's skip list rather than substituting the built-in default skip list,
so the claim that an empty category set yields the default category table
and the default skip list is false. -/
theorem c9_counterexample :
    categoriesOf c9data = [] ∧
    (load_config (.parsed c9data)).2 = [str ".foo"] ∧
    load_config (.parsed c9data) ≠ defaultsPair := by decide

/-- C9 (amended): load_config always returns a usable table — a missing or
malformed file yields the built-in defaults, an empty parsed category set
yields the default category table (while the skip set still honours the
file's SkipExtensions), the category mapping is never empty, and every
extension list in the mapping and the skip set is fixed under
normalization. -/
theorem c9_load_config_usable (src : ConfigSrc) :
    (load_config src).1 ≠ [] ∧
    (∀ p ∈ (load_config src).1, normalizeExtensions p.2 = p.2) ∧
    normalizeExtensions (load_config src).2 = (load_config src).2 ∧
    load_config .missing = defaultsPair ∧
    load_config .malformed = defaultsPair ∧
    (∀ data, src = .parsed data → categoriesOf data = [] →
      (load_config src).1 = DEFAULT_FILE_TYPES) := by
  have hdef1 : defaultsPair.1 ≠ [] := by decide
  have hdef2 : ∀ p ∈ defaultsPair.1, normalizeExtensions p.2 = p.2 := by decide
  have hdef3 : normalizeExtensions defaultsPair.2 = defaultsPair.2 :=
    normalizeExtensions_fix _
  cases src with
  | missing =>
    exact ⟨hdef1, hdef2, hdef3, rfl, rfl, fun data h => ConfigSrc.noConfusion h⟩
  | malformed =>
    exact ⟨hdef1, hdef2, hdef3, rfl, rfl, fun data h => ConfigSrc.noConfusion h⟩
  | parsed data =>
    cases hskip : skipItems ((lookupKey data "SkipExtensions").getD
        (.jlist DEFAULT_SKIP_EXTENSIONS)) with
    | none =>
      have hload : load_config (.parsed data) = defaultsPair := by
        simp only [load_config, hskip]
      rw [hload]
      exact ⟨hdef1, hdef2, hdef3, rfl, rfl, fun data2 h hc => rfl⟩
    | some rawSkip =>
      have hload : load_config (.parsed data) =
          (if categoriesOf data = [] then DEFAULT_FILE_TYPES
           else categoriesOf data, normalizeExtensions rawSkip) := by
        simp only [load_config, hskip]
      rw [hload]
      by_cases hcats : categoriesOf data = []
      · rw [if_pos hcats]
        refine ⟨?_, ?_, normalizeExtensions_fix rawSkip, rfl, rfl,
          fun data2 h hc => rfl⟩
        · show DEFAULT_FILE_TYPES ≠ []
          decide
        · show ∀ p ∈ DEFAULT_FILE_TYPES, normalizeExtensions p.2 = p.2
          decide
      · rw [if_neg hcats]
        refine ⟨hcats, categoriesOf_mem data, normalizeExtensions_fix rawSkip,
          rfl, rfl, ?_⟩
        intro data2 h hc
        cases h
        exact absurd hc hcats

/-- C9 witness: the amended claim evaluated at a malformed configuration. -/
theorem c9_load_config_usable_witness :
    (load_config .malformed).1 ≠ [] ∧
    (∀ p ∈ (load_config .malformed).1, normalizeExtensions p.2 = p.2) ∧
    normalizeExtensions (load_config .malformed).2 = (load_config .malformed).2 ∧
    load_config .missing = defaultsPair ∧
    load_config .malformed = defaultsPair ∧
    (∀ data, ConfigSrc.malformed = .parsed data → categoriesOf data = [] →
      (load_config .malformed).1 = DEFAULT_FILE_TYPES) :=
  c9_load_config_usable .malformed

/-!
The stability detector `is_file_fully_downloaded` (sorter.py lines 81-107).
The successive `os.path.getsize` probes are modelled by a schedule
`sizes : Nat → Option Int`: `sizes t` is the size observed by the probe of
iteration `t`, with `none` when the probe raises (the file vanished).  The
unbounded `while` loop is run under explicit fuel; `fuelOut` marks runs
whose termination the fuel did not witness.
-/

/-- Outcome of one run of the polling loop. -/
inductive PollResult where
  | ok (b : Bool)
  | err
  | fuelOut
  deriving DecidableEq

/-- The `while stable_count < wait_time` loop of is_file_fully_downloaded:
state is (prev_size, stable_count), probing `sizes t` each iteration. -/
def pollAux (sizes : Nat → Option Int) (wait check : Int) :
    Nat → Int → Int → Nat → PollResult
  | 0, _, _, _ => .fuelOut
  | fuel + 1, prev, stable, t =>
    if stable < wait then
      match sizes t with
      | none => .err
      | some cur =>
        pollAux sizes wait check fuel cur
          (if cur = prev then stable + check else 0) (t + 1)
    else .ok true

/-- `is_file_fully_downloaded` (sorter.py lines 81-107): prev_size starts
at -1, stable_count at 0, and the only return statement yields True. -/
def is_file_fully_downloaded (sizes : Nat → Option Int) (wait check : Int)
    (fuel : Nat) : PollResult :=
  pollAux sizes wait check fuel (-1) 0 0

theorem pollAux_ok_true (sizes : Nat → Option Int) (wait check : Int) :
    ∀ (fuel : Nat) (prev stable : Int) (t : Nat) (b : Bool),
      pollAux sizes wait check fuel prev stable t = .ok b → b = true := by
  intro fuel
  induction fuel with
  | zero => intro prev stable t b h; exact PollResult.noConfusion h
  | succ n ih =>
    intro prev stable t b h
    unfold pollAux at h
    by_cases hw : stable < wait
    · rw [if_pos hw] at h
      cases hs : sizes t with
      | none => rw [hs] at h; exact PollResult.noConfusion h
      | some cur =>
        rw [hs] at h
        exact ih cur _ (t + 1) b h
    · rw [if_neg hw] at h
      cases h
      rfl

theorem pollAux_growing (sizes : Nat → Option Int) (szs : Nat → Int)
    (check : Int) (hsz : ∀ t, sizes t = some (szs t))
    (hne : ∀ t, szs (t + 1) ≠ szs t) {wait : Int} (hw : 0 < wait) :
    ∀ (fuel : Nat) (t : Nat) (prev : Int) (hp : prev ≠ szs t),
      pollAux sizes wait check fuel prev 0 t = .fuelOut := by
  intro fuel
  induction fuel with
  | zero => intro t prev hp; rfl
  | succ n ih =>
    intro t prev hp
    unfold pollAux
    rw [if_pos hw, hsz t]
    have hcur : ¬ szs t = prev := fun h => hp h.symm
    show pollAux sizes wait check n (szs t)
        (if szs t = prev then 0 + check else 0) (t + 1) = .fuelOut
    rw [if_neg hcur]
    exact ih (t + 1) (szs t) fun h => hne t h.symm

/-- C10: the declared boolean of the stability detector is degenerate —
every terminating run returns True; a file whose size changes on every
probe keeps the loop alive for any amount of fuel (termination is delayed
indefinitely, never producing False); and a vanished file makes the first
size probe raise rather than return. -/
theorem c10_stability_never_false (sizes : Nat → Option Int)
    (wait check : Int) (fuel : Nat) :
    (∀ b, is_file_fully_downloaded sizes wait check fuel = .ok b → b = true) ∧
    (∀ szs : Nat → Int, (∀ t, sizes t = some (szs t)) →
      (∀ t, szs (t + 1) ≠ szs t) → (∀ t, 0 ≤ szs t) → 0 < wait →
      is_file_fully_downloaded sizes wait check fuel = .fuelOut) ∧
    (0 < wait → 0 < fuel → sizes 0 = none →
      is_file_fully_downloaded sizes wait check fuel = .err) := by
  refine ⟨fun b h => pollAux_ok_true sizes wait check fuel (-1) 0 0 b h,
    ?_, ?_⟩
  · intro szs hsz hne hpos hw
    refine pollAux_growing sizes szs check hsz hne hw fuel 0 (-1) ?_
    intro h
    have := hpos 0
    omega
  · intro hw hf h0
    match fuel, hf with
    | n + 1, _ =>
      show pollAux sizes wait check (n + 1) (-1) 0 0 = .err
      unfold pollAux
      rw [if_pos hw, h0]

/-- C10 witness: a constant-size schedule with the default parameters
(wait_time = 1, check_interval = 1) terminates, and the claim theorem
turns that terminating run into a True result. -/
theorem c10_stability_never_false_witness :
    is_file_fully_downloaded (fun _ => some 5) 1 1 3 = .ok true ∧
    true = true :=
  ⟨by decide,
   (c10_stability_never_false (fun _ => some 5) 1 1 3).1 true (by decide)⟩

/-- The detector indeed reaches its single return statement on a stable
file: size 5 on every probe, defaults wait_time = check_interval = 1. -/
theorem stability_ok_example :
    is_file_fully_downloaded (fun _ => some 5) 1 1 3 = .ok true := by
  decide

/-!
The collision resolver `check_name` (sorter.py lines 38-62).  The
filesystem snapshot is a list `occupied` of the full paths for which
`os.path.exists` answers true at the time of the call; `os.path.join` is
modelled with a single separator character.
-/

/-- os.path.join of a folder and an entry name. -/
def pathJoin (d name : Str) : Str := d ++ '/' :: name

/-- Python decimal digit character (`str` of a single digit). -/
def digitChar (d : Nat) : Char := Char.ofNat (48 + d)

/-- Decimal digits of n, most significant first, run on fuel. -/
def natReprAux : Nat → Nat → Str
  | 0, _ => []
  | fuel + 1, n =>
    if n = 0 then [] else natReprAux fuel (n / 10) ++ [digitChar (n % 10)]

/-- Python `str(n)` for a natural number. -/
def natRepr (n : Nat) : Str := if n = 0 then ['0'] else natReprAux n n

/-- Numeric value of a digit character. -/
def digitVal (c : Char) : Nat := c.toNat - 48

/-- Left inverse of `natRepr`, used to prove it injective. -/
def parseBack (s : Str) : Nat := s.foldl (fun acc c => acc * 10 + digitVal c) 0

theorem digitVal_digitChar : ∀ d < 10, digitVal (digitChar d) = d := by decide

theorem natReprAux_fuel :
    ∀ fuel fuel2 n, n ≤ fuel → n ≤ fuel2 →
      natReprAux fuel n = natReprAux fuel2 n := by
  intro fuel
  induction fuel with
  | zero =>
    intro fuel2 n hn _
    match n, hn with
    | 0, _ =>
      cases fuel2 with
      | zero => rfl
      | succ m => simp [natReprAux]
  | succ f ih =>
    intro fuel2 n hn hn2
    by_cases h0 : n = 0
    · subst h0
      cases fuel2 with
      | zero => simp [natReprAux]
      | succ m => simp [natReprAux]
    · match fuel2, Nat.lt_of_lt_of_le (Nat.pos_of_ne_zero h0) hn2 with
      | m + 1, _ =>
        show (if n = 0 then [] else natReprAux f (n / 10) ++ [digitChar (n % 10)]) =
          (if n = 0 then [] else natReprAux m (n / 10) ++ [digitChar (n % 10)])
        rw [if_neg h0, if_neg h0]
        have hdiv : n / 10 < n := Nat.div_lt_self (Nat.pos_of_ne_zero h0) (by omega)
        rw [ih m (n / 10) (by omega) (by omega)]

/-- Reading digits left to right into an accumulator. -/
theorem foldl_digits_append (a : Nat) (xs : Str) (c : Char) :
    (xs ++ [c]).foldl (fun acc ch => acc * 10 + digitVal ch) a =
      (xs.foldl (fun acc ch => acc * 10 + digitVal ch) a) * 10 + digitVal c := by
  rw [List.foldl_append]
  rfl

theorem natRepr_small (n : Nat) (h1 : 1 ≤ n) (h9 : n ≤ 9) :
    natRepr n = [digitChar n] := by
  unfold natRepr
  rw [if_neg (by omega)]
  match n, h1 with
  | m + 1, _ =>
    show (if m + 1 = 0 then [] else
      natReprAux m ((m + 1) / 10) ++ [digitChar ((m + 1) % 10)]) = _
    rw [if_neg (by omega)]
    have hdiv : (m + 1) / 10 = 0 := Nat.div_eq_of_lt (by omega)
    have hmod : (m + 1) % 10 = m + 1 := Nat.mod_eq_of_lt (by omega)
    rw [hdiv, hmod]
    have : natReprAux m 0 = [] := by
      cases m with
      | zero => rfl
      | succ k => simp [natReprAux]
    rw [this]
    rfl

theorem natRepr_big (n : Nat) (h : 10 ≤ n) :
    natRepr n = natRepr (n / 10) ++ [digitChar (n % 10)] := by
  have h0 : n ≠ 0 := by omega
  have hd0 : n / 10 ≠ 0 := (Nat.div_pos h (by omega)).ne'
  unfold natRepr
  rw [if_neg h0, if_neg hd0]
  match n, h with
  | m + 1, _ =>
    show (if m + 1 = 0 then [] else
      natReprAux m ((m + 1) / 10) ++ [digitChar ((m + 1) % 10)]) = _
    rw [if_neg (by omega)]
    have hdiv : (m + 1) / 10 < m + 1 := Nat.div_lt_self (by omega) (by omega)
    rw [natReprAux_fuel m ((m + 1) / 10) ((m + 1) / 10) (by omega) (by omega)]

theorem parseBack_natRepr (n : Nat) :
    ∀ a, (natRepr n).foldl (fun acc c => acc * 10 + digitVal c) a =
      a * 10 ^ (natRepr n).length + n := by
  induction n using Nat.strong_induction_on with
  | _ n ih =>
    intro a
    by_cases h0 : n = 0
    · subst h0
      show a * 10 + digitVal (digitChar 0) = a * 10 ^ 1 + 0
      rw [digitVal_digitChar 0 (by omega)]
      ring
    · by_cases h9 : n ≤ 9
      · rw [natRepr_small n (by omega) h9]
        show a * 10 + digitVal (digitChar n) = a * 10 ^ 1 + n
        rw [digitVal_digitChar n (by omega)]
        ring
      · have h10 : 10 ≤ n := by omega
        rw [natRepr_big n h10, foldl_digits_append,
          ih (n / 10) (Nat.div_lt_self (by omega) (by omega)) a,
          digitVal_digitChar (n % 10) (Nat.mod_lt n (by omega)),
          List.length_append]
        have : n / 10 * 10 + n % 10 = n := by omega
        simp only [List.length_cons, List.length_nil]
        ring_nf
        omega

theorem natRepr_injective : Function.Injective natRepr := by
  intro n m h
  have hn := parseBack_natRepr n 0
  have hm := parseBack_natRepr m 0
  rw [h] at hn
  omega

/-- Index of the last dot of a name, as os.path.splitext locates it. -/
def lastDot (s : Str) : Option Nat :=
  (s.reverse.findIdx? fun c => c == '.').map fun j => s.length - 1 - j

/-- os.path.splitext restricted to a basename: split at the last dot,
except when every character before that dot is itself a dot (then the
name has no extension). -/
def splitext (s : Str) : Str × Str :=
  match lastDot s with
  | none => (s, [])
  | some i =>
    if (s.take i).any (fun c => c != '.') then (s.take i, s.drop i)
    else (s, [])

example : splitext (str "file.txt") = (str "file", str ".txt") := by decide

example : splitext (str "report") = (str "report", []) := by decide

example : splitext (str "archive.tar.gz") = (str "archive.tar", str ".gz") := by
  decide

example : splitext (str ".bashrc") = (str ".bashrc", []) := by decide

/-- The probed name `f"{file_name}_{'('+str(counter)+')'}{extension}"`
of check_name (sorter.py line 56). -/
def numbered (stem ext : Str) (n : Nat) : Str :=
  stem ++ str "_(" ++ natRepr n ++ str ")" ++ ext

theorem numbered_assoc (stem ext : Str) (n : Nat) :
    numbered stem ext n =
      (stem ++ str "_(") ++ (natRepr n ++ (str ")" ++ ext)) := by
  simp [numbered, List.append_assoc]

theorem numbered_injective (stem ext : Str) :
    Function.Injective (numbered stem ext) := by
  intro n m h
  rw [numbered_assoc, numbered_assoc] at h
  have h2 : natRepr n ++ (str ")" ++ ext) = natRepr m ++ (str ")" ++ ext) :=
    List.append_cancel_left h
  exact natRepr_injective (List.append_cancel_right h2)

theorem pathJoin_injective (d : Str) : Function.Injective (pathJoin d) := by
  intro x y h
  unfold pathJoin at h
  exact List.tail_eq_of_cons_eq (List.append_cancel_left h)

/-- The `while os.path.exists(...) : counter += 1` loop of check_name,
run on fuel; `check_name` supplies fuel `occupied.length + 1`, which the
pigeonhole argument below shows is always enough. -/
def scanFree (occupied : List Str) (dest stem ext : Str) :
    Nat → Nat → Nat
  | 0, counter => counter
  | fuel + 1, counter =>
    if pathJoin dest (numbered stem ext counter) ∈ occupied then
      scanFree occupied dest stem ext fuel (counter + 1)
    else counter

/-- `check_name` (sorter.py lines 38-62). -/
def check_name (occupied : List Str) (dest_folder entry_name : Str) : Str :=
  let stemext := splitext entry_name
  let destination_path_name := pathJoin dest_folder entry_name
  if destination_path_name ∈ occupied then
    pathJoin dest_folder
      (numbered stemext.1 stemext.2
        (scanFree occupied dest_folder stemext.1 stemext.2
          (occupied.length + 1) 1))
  else destination_path_name

theorem scanFree_ge (occupied : List Str) (dest stem ext : Str) :
    ∀ fuel counter, counter ≤ scanFree occupied dest stem ext fuel counter := by
  intro fuel
  induction fuel with
  | zero => intro counter; exact Nat.le_refl _
  | succ f ih =>
    intro counter
    unfold scanFree
    by_cases h : pathJoin dest (numbered stem ext counter) ∈ occupied
    · rw [if_pos h]
      exact Nat.le_trans (by omega) (ih (counter + 1))
    · rw [if_neg h]

theorem scanFree_below (occupied : List Str) (dest stem ext : Str) :
    ∀ fuel counter m, counter ≤ m →
      m < scanFree occupied dest stem ext fuel counter →
      pathJoin dest (numbered stem ext m) ∈ occupied := by
  intro fuel
  induction fuel with
  | zero =>
    intro counter m h1 h2
    exact absurd (Nat.lt_of_le_of_lt h1 h2) (Nat.lt_irrefl _)
  | succ f ih =>
    intro counter m h1 h2
    unfold scanFree at h2
    by_cases h : pathJoin dest (numbered stem ext counter) ∈ occupied
    · rw [if_pos h] at h2
      rcases Nat.eq_or_lt_of_le h1 with heq | hlt
      · subst heq; exact h
      · exact ih (counter + 1) m hlt h2
    · rw [if_neg h] at h2
      exact absurd (Nat.lt_of_le_of_lt h1 h2) (Nat.lt_irrefl _)

theorem scanFree_free (occupied : List Str) (dest stem ext : Str) :
    ∀ fuel counter,
      (∃ j < fuel, pathJoin dest (numbered stem ext (counter + j)) ∉ occupied) →
      pathJoin dest
          (numbered stem ext (scanFree occupied dest stem ext fuel counter)) ∉
        occupied := by
  intro fuel
  induction fuel with
  | zero =>
    intro counter h
    obtain ⟨j, hj, _⟩ := h
    exact absurd hj (Nat.not_lt_zero j)
  | succ f ih =>
    intro counter h
    unfold scanFree
    by_cases hc : pathJoin dest (numbered stem ext counter) ∈ occupied
    · rw [if_pos hc]
      refine ih (counter + 1) ?_
      obtain ⟨j, hj, hfree⟩ := h
      match j, hfree with
      | 0, hfree => exact absurd hc hfree
      | j + 1, hfree =>
        exact ⟨j, by omega, by
          have : counter + 1 + j = counter + (j + 1) := by omega
          rw [this]; exact hfree⟩
    · rw [if_neg hc]
      exact hc

/-- Pigeonhole: among the first `occupied.length + 1` probe names, one is
not occupied (the probe names are pairwise distinct). -/
theorem exists_free_probe (occupied : List Str) (dest stem ext : Str) :
    ∃ j < occupied.length + 1,
      pathJoin dest (numbered stem ext (1 + j)) ∉ occupied := by
  by_contra hall
  push_neg at hall
  have hinj : Function.Injective
      (fun j : Nat => pathJoin dest (numbered stem ext (1 + j))) := by
    intro a b hab
    have := numbered_injective stem ext (pathJoin_injective dest hab)
    omega
  have hsub : (Finset.range (occupied.length + 1)).image
      (fun j : Nat => pathJoin dest (numbered stem ext (1 + j))) ⊆
        occupied.toFinset := by
    intro x hx
    obtain ⟨j, hj, rfl⟩ := Finset.mem_image.mp hx
    exact List.mem_toFinset.mpr (hall j (Finset.mem_range.mp hj))
  have hcard := Finset.card_le_card hsub
  rw [Finset.card_image_of_injective _ hinj, Finset.card_range] at hcard
  have := occupied.toFinset_card_le
  omega

theorem no_dot_splitext (s : Str) (h : '.' ∉ s) : splitext s = (s, []) := by
  unfold splitext lastDot
  have hfind : (s.reverse.findIdx? fun c => c == '.') = none := by
    rw [List.findIdx?_eq_none_iff]
    intro c hc
    have : c ≠ '.' := fun heq => h (heq ▸ (List.mem_reverse.mp hc))
    simpa using this
  rw [hfind]
  rfl

theorem check_name_not_collision (occupied : List Str) (dest entry : Str)
    (h : pathJoin dest entry ∉ occupied) :
    check_name occupied dest entry = pathJoin dest entry := by
  simp only [check_name]
  rw [if_neg h]

theorem check_name_collision (occupied : List Str) (dest entry : Str)
    (h : pathJoin dest entry ∈ occupied) :
    check_name occupied dest entry =
      pathJoin dest (numbered (splitext entry).1 (splitext entry).2
        (scanFree occupied dest (splitext entry).1 (splitext entry).2
          (occupied.length + 1) 1)) := by
  simp only [check_name]
  rw [if_pos h]

theorem scanFree_result_free (occupied : List Str) (dest stem ext : Str) :
    pathJoin dest (numbered stem ext
        (scanFree occupied dest stem ext (occupied.length + 1) 1)) ∉
      occupied := by
  refine scanFree_free occupied dest stem ext (occupied.length + 1) 1 ?_
  obtain ⟨j, hj, hfree⟩ := exists_free_probe occupied dest stem ext
  exact ⟨j, hj, by
    have : 1 + j = 1 + j := rfl
    exact hfree⟩

/-- C2: check_name returns the original path when it is unoccupied; on a
collision it splits the entry at its final suffix (empty extension when
the name has no dot) and returns `dest/stem_(n)ext` for the least counter
n ≥ 1 whose probe is unoccupied; the returned path is never occupied at
the time of the check; and the spec's two concrete examples hold,
including the extensionless "report" with no trailing dot. -/
theorem c2_check_name_collision_free (occupied : List Str) (dest entry : Str) :
    (pathJoin dest entry ∉ occupied →
      check_name occupied dest entry = pathJoin dest entry) ∧
    ('.' ∉ entry → splitext entry = (entry, [])) ∧
    (pathJoin dest entry ∈ occupied →
      ∃ n, 1 ≤ n ∧
        check_name occupied dest entry =
          pathJoin dest (numbered (splitext entry).1 (splitext entry).2 n) ∧
        pathJoin dest (numbered (splitext entry).1 (splitext entry).2 n) ∉
          occupied ∧
        ∀ m, 1 ≤ m → m < n →
          pathJoin dest (numbered (splitext entry).1 (splitext entry).2 m) ∈
            occupied) ∧
    check_name occupied dest entry ∉ occupied ∧
    check_name [pathJoin (str "dst") (str "file.txt"),
        pathJoin (str "dst") (str "file_(1).txt")] (str "dst")
        (str "file.txt") =
      pathJoin (str "dst") (str "file_(2).txt") ∧
    check_name [pathJoin (str "dst") (str "report")] (str "dst")
        (str "report") =
      pathJoin (str "dst") (str "report_(1)") := by
  refine ⟨check_name_not_collision occupied dest entry,
    no_dot_splitext entry, ?_, ?_, by decide, by decide⟩
  · intro hin
    refine ⟨scanFree occupied dest (splitext entry).1 (splitext entry).2
        (occupied.length + 1) 1, ?_, ?_, ?_, ?_⟩
    · exact scanFree_ge occupied dest _ _ (occupied.length + 1) 1
    · exact check_name_collision occupied dest entry hin
    · exact scanFree_result_free occupied dest _ _
    · intro m h1 hm
      exact scanFree_below occupied dest _ _ (occupied.length + 1) 1 m h1 hm
  · by_cases hin : pathJoin dest entry ∈ occupied
    · rw [check_name_collision occupied dest entry hin]
      exact scanFree_result_free occupied dest _ _
    · rw [check_name_not_collision occupied dest entry hin]
      exact hin

/-- C2 witness: the claim theorem applied at the spec's example directory
{"file.txt", "file_(1).txt"}, with the collision hypothesis discharged by
evaluation. -/
theorem c2_check_name_collision_free_witness :
    pathJoin (str "dst") (str "file.txt") ∈
      [pathJoin (str "dst") (str "file.txt"),
       pathJoin (str "dst") (str "file_(1).txt")] ∧
    ∃ n, 1 ≤ n ∧
      check_name [pathJoin (str "dst") (str "file.txt"),
          pathJoin (str "dst") (str "file_(1).txt")] (str "dst")
          (str "file.txt") =
        pathJoin (str "dst")
          (numbered (splitext (str "file.txt")).1
            (splitext (str "file.txt")).2 n) ∧
      pathJoin (str "dst")
          (numbered (splitext (str "file.txt")).1
            (splitext (str "file.txt")).2 n) ∉
        [pathJoin (str "dst") (str "file.txt"),
         pathJoin (str "dst") (str "file_(1).txt")] ∧
      ∀ m, 1 ≤ m → m < n →
        pathJoin (str "dst")
            (numbered (splitext (str "file.txt")).1
              (splitext (str "file.txt")).2 m) ∈
          [pathJoin (str "dst") (str "file.txt"),
           pathJoin (str "dst") (str "file_(1).txt")] :=
  ⟨by decide,
   (c2_check_name_collision_free
      [pathJoin (str "dst") (str "file.txt"),
       pathJoin (str "dst") (str "file_(1).txt")] (str "dst")
      (str "file.txt")).2.2.1 (by decide)⟩

/-!
The mover and the batch coordinator (sorter.py lines 110-251).

The filesystem is a `World`: the list of full paths of existing regular
files and of existing directories.  External effects are oracles in an
`Env`: the answer of the meme prompt, and for each fallible primitive
(os.makedirs, the getsize polling inside is_file_fully_downloaded,
shutil.move) either success or the exception it raises.  Observable
collaborator calls (prompt, logging, notifications, progress reporting)
are recorded in an event trace; status strings and notification text are
not modelled.  A fallible computation yields a `Run`: a normal value or
an uncaught exception, each carrying the world and the trace at that
point.
-/

/-- An exception identity (the model never inspects it). -/
abbrev Err := Nat

/-- Filesystem snapshot: existing regular files and directories. -/
structure World where
  files : List Str
  dirs : List Str
  deriving DecidableEq

/-- The module-level configuration the sorter reads: `file_types`,
`SKIP_EXTENSIONS`, `PATH_TO_FOLDERS` (total, as config.py lines 160-165
give every category a folder), `meme_enabled` and
`DOWNLOADS_FOLDER_PATH`. -/
structure Config where
  file_types : List (String × List Str)
  skip : List Str
  paths : String → Str
  meme_enabled : Bool
  downloads : Str

/-- Oracles for the external collaborators and fallible primitives. -/
structure Env where
  memeAnswer : Bool
  mkdirsErr : Str → Option Err
  stabilityResult : Str → Except Err Bool
  moveErr : Str → Str → Option Err

/-- Observable collaborator calls. -/
inductive Event where
  | prompted
  | logMove (name dest : Str)
  | notified
  | progressBegin (total : Nat)
  | progressUpdate (done total : Nat)
  | progressDone
  | logError (e : Err)
  deriving DecidableEq

/-- Outcome of a fallible piece of Python: a normal value or an uncaught
exception, with the world and emitted events at that point. -/
inductive Run (α : Type) where
  | ok (val : α) (w : World) (tr : List Event)
  | exn (e : Err) (w : World) (tr : List Event)
  deriving DecidableEq

def Run.trace {α : Type} : Run α → List Event
  | .ok _ _ tr => tr
  | .exn _ _ tr => tr

def Run.world {α : Type} : Run α → World
  | .ok _ w _ => w
  | .exn _ w _ => w

def Run.isExn {α : Type} : Run α → Bool
  | .ok _ _ _ => false
  | .exn _ _ _ => true

/-- os.path.basename of a path: the part after the last separator. -/
def basename (p : Str) : Str := (p.reverse.takeWhile fun c => c != '/').reverse

/-- os.path.dirname of a path: the part before the last separator. -/
def dirOf (p : Str) : Str := ((p.reverse.dropWhile fun c => c != '/').drop 1).reverse

example : basename (str "dl/a.txt") = str "a.txt" := by decide

example : dirOf (str "dl/a.txt") = str "dl" := by decide

/-- `should_skip_by_extension` (sorter.py lines 65-78): lowercase the
whole name, split off the extension, test skip membership. -/
def should_skip_by_extension (cfg : Config) (filename : Str) : Bool :=
  decide ((splitext (pyLower filename)).2 ∈ cfg.skip)

/-- `resolve_destination` (sorter.py lines 110-136).  Returns the chosen
folder (or none) together with the events emitted (a prompt when the
meme question was asked). -/
def resolve_destination (cfg : Config) (env : Env) (w : World) (path : Str)
    (ask_meme : Bool) : Option Str × List Event :=
  let entry_name := basename path
  if should_skip_by_extension cfg entry_name = true ∨ path ∉ w.files then
    (none, [])
  else
    let ext := pyLower (splitext entry_name).2
    match cfg.file_types.find? fun p => decide (ext ∈ p.2) with
    | none => (none, [])
    | some p =>
      if p.1 = "Media" ∧ cfg.meme_enabled = true ∧ ask_meme = true then
        (some (if env.memeAnswer then cfg.paths "Memes" else cfg.paths "Media"),
         [.prompted])
      else (some (cfg.paths p.1), [])

/-- os.makedirs(dest, exist_ok=True) on success (parents unmodelled). -/
def mkdirsApply (d : Str) (dirs : List Str) : List Str :=
  if d ∈ dirs then dirs else d :: dirs

/-- `sort_file` (sorter.py lines 139-188).  The body has no exception
handling: a failing primitive yields `Run.exn`. -/
def sort_file (cfg : Config) (env : Env) (w : World) (path : Str)
    (notify : Bool) (planned_dest : Option Str) : Run (Option Str) :=
  let entry_name := basename path
  if should_skip_by_extension cfg entry_name = true ∨ path ∉ w.files then
    .ok none w []
  else
    let resolved := match planned_dest with
      | some d => (some d, ([] : List Event))
      | none => resolve_destination cfg env w path true
    match resolved.1 with
    | none => .ok none w resolved.2
    | some dest_folder =>
      if dest_folder = [] then .ok none w resolved.2
      else
        match env.mkdirsErr dest_folder with
        | some e => .exn e w resolved.2
        | none =>
          let w1 : World := ⟨w.files, mkdirsApply dest_folder w.dirs⟩
          let destination_path :=
            check_name (w1.files ++ w1.dirs) dest_folder entry_name
          match env.stabilityResult path with
          | .error e => .exn e w1 resolved.2
          | .ok stable =>
            if stable then
              match env.moveErr path destination_path with
              | some e => .exn e w1 resolved.2
              | none =>
                .ok (some destination_path)
                  ⟨destination_path :: w1.files.erase path, w1.dirs⟩
                  (resolved.2 ++ [.logMove entry_name dest_folder] ++
                    (if notify then [.notified] else []))
            else .ok none w1 resolved.2

/-- The candidate-building loop of sort_files (sorter.py lines 207-214):
skip-filter each enumerated file, classify it without the meme prompt,
and keep those with a resolved destination (with any events emitted by
classification). -/
def scanCandidates (cfg : Config) (env : Env) (w : World) :
    List Str → List (Str × Str) × List Event
  | [] => ([], [])
  | p :: rest =>
    let tail := scanCandidates cfg env w rest
    if should_skip_by_extension cfg (basename p) = true then tail
    else
      match resolve_destination cfg env w p false with
      | (some d, evs) => ((p, d) :: tail.1, evs ++ tail.2)
      | (none, evs) => (tail.1, evs ++ tail.2)

/-- The per-candidate loop of sort_files (sorter.py lines 221-229):
move with the pre-resolved destination and no per-file toast, then
report progress.  An exception from sort_file aborts the loop. -/
def processLoop (cfg : Config) (env : Env) (total : Nat) :
    List (Str × Str) → World → Nat → List Str → Run (List Str)
  | [], w, _, moved => .ok moved w []
  | (p, d) :: rest, w, done, moved =>
    match sort_file cfg env w p false (some d) with
    | .exn e w2 tr => .exn e w2 tr
    | .ok r w2 tr =>
      let moved2 := match r with
        | some res => moved ++ [basename res]
        | none => moved
      match processLoop cfg env total rest w2 (done + 1) moved2 with
      | .exn e w3 tr2 =>
        .exn e w3 (tr ++ [.progressUpdate (done + 1) total] ++ tr2)
      | .ok mv w3 tr2 =>
        .ok mv w3 (tr ++ [.progressUpdate (done + 1) total] ++ tr2)

/-- The body of the `try` block of sort_files (sorter.py lines 203-248).
`arrivals` are files that appear in the source directory after the
candidate scan: they join the world only once the scan is done. -/
def sortFilesBody (cfg : Config) (env : Env) (w : World)
    (arrivals : List Str) : Run (List Str) :=
  if cfg.downloads ∈ w.files ∨ cfg.downloads ∈ w.dirs then
    let raw_files := w.files.filter fun p => decide (dirOf p = cfg.downloads)
    let scan := scanCandidates cfg env w raw_files
    let total := scan.1.length
    let w1 : World := ⟨arrivals ++ w.files, w.dirs⟩
    if total = 0 then .ok [] w1 scan.2
    else
      match processLoop cfg env total scan.1 w1 0 [] with
      | .exn e w2 tr =>
        .exn e w2 (scan.2 ++ [.progressBegin total, .progressUpdate 0 total] ++ tr)
      | .ok moved w2 tr =>
        .ok moved w2 (scan.2 ++ [.progressBegin total, .progressUpdate 0 total] ++
          tr ++ [.progressDone] ++ (if moved ≠ [] then [.notified] else []))
  else .ok [] w []

/-- `sort_files` in sorter.py (lines 191-251): the whole sweep body is
wrapped in try/except — an exception is logged and the function returns
normally. -/
def sort_files (cfg : Config) (env : Env) (w : World)
    (arrivals : List Str) : World × List Event :=
  match sortFilesBody cfg env w arrivals with
  | .ok _ w2 tr => (w2, tr)
  | .exn e w2 tr => (w2, tr ++ [.logError e])

/-- Whether a sweep attempt ends with the hosting process alive. -/
inductive SweepExit where
  | returned
  | exited
  deriving DecidableEq

/-- `sort_files` in main.py (lines 697-779): gated on the tray icon being
initialised, same sweep body (modelled up to status strings and an extra
per-file progress update, which no claim inspects), but its except clause
calls sys.exit(1) after logging (main.py lines 777-779). -/
def sort_files_main (pytrayReady : Bool) (cfg : Config) (env : Env)
    (w : World) (arrivals : List Str) : World × List Event × SweepExit :=
  if pytrayReady then
    match sortFilesBody cfg env w arrivals with
    | .ok _ w2 tr => (w2, tr, .returned)
    | .exn e w2 tr => (w2, tr ++ [.logError e], .exited)
  else (w, [], .returned)

/-- The candidate scan's view of a sweep: candidates computed from the
directory snapshot taken at sweep start (before any arrival). -/
def snapshotCandidates (cfg : Config) (env : Env) (w : World) :
    List (Str × Str) :=
  (scanCandidates cfg env w
    (w.files.filter fun p => decide (dirOf p = cfg.downloads))).1

/-- The fixed batch denominator: the candidate count at scan time. -/
def snapshotTotal (cfg : Config) (env : Env) (w : World) : Nat :=
  (snapshotCandidates cfg env w).length

/-- Classification without the meme prompt is pure: it emits no event and
resolves a match straight to the category's configured folder. -/
theorem resolve_destination_noask (cfg : Config) (env : Env) (w : World)
    (path : Str) :
    resolve_destination cfg env w path false =
      (if should_skip_by_extension cfg (basename path) = true ∨ path ∉ w.files
       then none
       else
         match cfg.file_types.find? fun p =>
             decide (pyLower (splitext (basename path)).2 ∈ p.2) with
         | none => none
         | some p => some (cfg.paths p.1),
       []) := by
  simp only [resolve_destination]
  by_cases h : should_skip_by_extension cfg (basename path) = true ∨ path ∉ w.files
  · rw [if_pos h, if_pos h]
  · rw [if_neg h, if_neg h]
    cases hf : cfg.file_types.find? fun p =>
        decide (pyLower (splitext (basename path)).2 ∈ p.2) with
    | none => rfl
    | some q =>
      have hcond : ¬ (q.1 = "Media" ∧ cfg.meme_enabled = true ∧ false = true) :=
        fun hc => Bool.false_ne_true hc.2.2
      show (if q.1 = "Media" ∧ cfg.meme_enabled = true ∧ false = true then
          (some (if env.memeAnswer = true then cfg.paths "Memes"
                 else cfg.paths "Media"), [Event.prompted])
        else (some (cfg.paths q.1), [])) = (some (cfg.paths q.1), [])
      rw [if_neg hcond]

theorem resolve_destination_noask_snd (cfg : Config) (env : Env) (w : World)
    (path : Str) : (resolve_destination cfg env w path false).2 = [] := by
  rw [resolve_destination_noask]

theorem scanCandidates_trace (cfg : Config) (env : Env) (w : World) :
    ∀ raw, (scanCandidates cfg env w raw).2 = [] := by
  intro raw
  induction raw with
  | nil => rfl
  | cons p rest ih =>
    simp only [scanCandidates]
    by_cases hs : should_skip_by_extension cfg (basename p) = true
    · rw [if_pos hs]
      exact ih
    · rw [if_neg hs]
      have hsnd := resolve_destination_noask_snd cfg env w p
      cases hres : resolve_destination cfg env w p false with
      | mk d evs =>
        rw [hres] at hsnd
        have hevs : evs = [] := hsnd
        cases d with
        | none => simp [hevs, ih]
        | some d0 => simp [hevs, ih]

/-- With a pre-resolved destination, the mover emits at most a move log
and a toast: in particular it never prompts and never reports progress. -/
theorem sort_file_planned_events (cfg : Config) (env : Env) (w : World)
    (path : Str) (notify : Bool) (d : Str) :
    ∀ ev ∈ (sort_file cfg env w path notify (some d)).trace,
      ev = .logMove (basename path) d ∨ ev = .notified := by
  intro ev hev
  simp only [sort_file] at hev
  by_cases h1 : should_skip_by_extension cfg (basename path) = true ∨
      path ∉ w.files
  · rw [if_pos h1] at hev
    simp [Run.trace] at hev
  · rw [if_neg h1] at hev
    by_cases h2 : d = []
    · rw [if_pos h2] at hev
      simp [Run.trace] at hev
    · rw [if_neg h2] at hev
      cases hmk : env.mkdirsErr d with
      | some e =>
        rw [hmk] at hev
        simp [Run.trace] at hev
      | none =>
        rw [hmk] at hev
        cases hst : env.stabilityResult path with
        | error e =>
          rw [hst] at hev
          simp [Run.trace] at hev
        | ok stable =>
          rw [hst] at hev
          cases stable with
          | false => simp [Run.trace] at hev
          | true =>
            cases hmv : env.moveErr path
                (check_name (w.files ++ mkdirsApply d w.dirs) d
                  (basename path)) with
            | some e =>
              rw [hmv] at hev
              simp [Run.trace] at hev
            | none =>
              rw [hmv] at hev
              cases notify with
              | true =>
                simp [Run.trace] at hev
                rcases hev with hev | hev
                · exact Or.inl hev
                · exact Or.inr hev
              | false =>
                simp [Run.trace] at hev
                exact Or.inl hev

/-- Any exception escaping the mover leaves the file set unchanged and
originates in os.makedirs, the stability poll, or shutil.move. -/
theorem sort_file_exn_cases (cfg : Config) (env : Env) (w : World)
    (path : Str) (notify : Bool) (pd : Option Str) (e : Err) (w2 : World)
    (tr : List Event)
    (h : sort_file cfg env w path notify pd = .exn e w2 tr) :
    w2.files = w.files ∧
    ((∃ d2, env.mkdirsErr d2 = some e) ∨
     env.stabilityResult path = .error e ∨
     (∃ dst, env.moveErr path dst = some e)) := by
  have main : ∀ (dest : Str) (evs : List Event),
      (if should_skip_by_extension cfg (basename path) = true ∨ path ∉ w.files
       then Run.ok (α := Option Str) none w []
       else
        if dest = [] then .ok none w evs
        else
          match env.mkdirsErr dest with
          | some e2 => .exn e2 w evs
          | none =>
            match env.stabilityResult path with
            | .error e2 => .exn e2 ⟨w.files, mkdirsApply dest w.dirs⟩ evs
            | .ok stable =>
              if stable then
                match env.moveErr path
                    (check_name (w.files ++ mkdirsApply dest w.dirs) dest
                      (basename path)) with
                | some e2 => .exn e2 ⟨w.files, mkdirsApply dest w.dirs⟩ evs
                | none =>
                  .ok (some (check_name (w.files ++ mkdirsApply dest w.dirs)
                      dest (basename path)))
                    ⟨check_name (w.files ++ mkdirsApply dest w.dirs) dest
                        (basename path) ::
                      (⟨w.files, mkdirsApply dest w.dirs⟩ : World).files.erase
                        path,
                      mkdirsApply dest w.dirs⟩
                    (evs ++ [.logMove (basename path) dest] ++
                      (if notify then [.notified] else []))
              else .ok none ⟨w.files, mkdirsApply dest w.dirs⟩ evs) =
        .exn e w2 tr →
      w2.files = w.files ∧
      ((∃ d2, env.mkdirsErr d2 = some e) ∨
       env.stabilityResult path = .error e ∨
       (∃ dst, env.moveErr path dst = some e)) := by
    intro dest evs hh
    by_cases h1 : should_skip_by_extension cfg (basename path) = true ∨
        path ∉ w.files
    · rw [if_pos h1] at hh
      exact Run.noConfusion hh
    · rw [if_neg h1] at hh
      by_cases h2 : dest = []
      · rw [if_pos h2] at hh
        exact Run.noConfusion hh
      · rw [if_neg h2] at hh
        cases hmk : env.mkdirsErr dest with
        | some e2 =>
          rw [hmk] at hh
          cases hh
          exact ⟨rfl, Or.inl ⟨dest, hmk⟩⟩
        | none =>
          rw [hmk] at hh
          cases hst : env.stabilityResult path with
          | error e2 =>
            rw [hst] at hh
            cases hh
            exact ⟨rfl, Or.inr (Or.inl rfl)⟩
          | ok stable =>
            rw [hst] at hh
            cases stable with
            | false => exact Run.noConfusion hh
            | true =>
              cases hmv : env.moveErr path
                  (check_name (w.files ++ mkdirsApply dest w.dirs) dest
                    (basename path)) with
              | some e2 =>
                rw [hmv] at hh
                cases hh
                exact ⟨rfl, Or.inr (Or.inr ⟨_, hmv⟩)⟩
              | none =>
                rw [hmv] at hh
                exact Run.noConfusion hh
  cases pd with
  | some d => exact main d [] h
  | none =>
    by_cases h1 : should_skip_by_extension cfg (basename path) = true ∨
        path ∉ w.files
    · simp only [sort_file] at h
      rw [if_pos h1] at h
      exact Run.noConfusion h
    · cases hres : resolve_destination cfg env w path true with
      | mk dopt evs =>
        simp only [sort_file, hres] at h
        cases dopt with
        | none =>
          rw [if_neg h1] at h
          exact Run.noConfusion h
        | some dest =>
          rw [if_neg h1] at h
          exact main dest evs (by rw [if_neg h1]; exact h)

/-- Every event of the per-candidate loop is a move log, a toast, or a
progress update carrying the loop's fixed total and a `done` value inside
the window the loop processes. -/
theorem processLoop_events (cfg : Config) (env : Env) (total : Nat)
    (cands : List (Str × Str)) :
    ∀ w done moved,
      ∀ ev ∈ (processLoop cfg env total cands w done moved).trace,
        (∃ n d2, ev = .logMove n d2) ∨ ev = .notified ∨
        ∃ k, ev = .progressUpdate k total ∧ done < k ∧
          k ≤ done + cands.length := by
  induction cands with
  | nil =>
    intro w done moved ev hev
    simp [processLoop, Run.trace] at hev
  | cons c rest ih =>
    intro w done moved ev hev
    obtain ⟨p, d⟩ := c
    simp only [processLoop] at hev
    cases hsf : sort_file cfg env w p false (some d) with
    | exn e w2 tr =>
      rw [hsf] at hev
      simp only [Run.trace] at hev
      have := sort_file_planned_events cfg env w p false d ev
        (by rw [hsf]; exact hev)
      rcases this with h | h
      · exact Or.inl ⟨_, _, h⟩
      · exact Or.inr (Or.inl h)
    | ok r w2 tr =>
      rw [hsf] at hev
      have htr : ∀ ev2 ∈ tr,
          ev2 = .logMove (basename p) d ∨ ev2 = .notified := by
        intro ev2 hev2
        exact sort_file_planned_events cfg env w p false d ev2
          (by rw [hsf]; exact hev2)
      have step : ∀ moved2,
          ev ∈ (match processLoop cfg env total rest w2 (done + 1) moved2 with
            | Run.exn e w3 tr2 =>
              Run.exn (α := List Str) e w3
                (tr ++ [Event.progressUpdate (done + 1) total] ++ tr2)
            | Run.ok mv w3 tr2 =>
              Run.ok mv w3
                (tr ++ [Event.progressUpdate (done + 1) total] ++ tr2)).trace →
          (∃ n d2, ev = .logMove n d2) ∨ ev = .notified ∨
          ∃ k, ev = .progressUpdate k total ∧ done < k ∧
            k ≤ done + ((p, d) :: rest).length := by
        intro moved2 hev2
        cases hrec : processLoop cfg env total rest w2 (done + 1) moved2 with
        | exn e w3 tr2 =>
          rw [hrec] at hev2
          simp only [Run.trace, List.mem_append, List.mem_singleton] at hev2
          rcases hev2 with (hev2 | hev2) | hev2
          · rcases htr ev hev2 with h | h
            · exact Or.inl ⟨_, _, h⟩
            · exact Or.inr (Or.inl h)
          · exact Or.inr (Or.inr ⟨done + 1, hev2, by omega, by simp⟩)
          · have := ih w2 (done + 1) moved2 ev (by rw [hrec]; exact hev2)
            rcases this with h | h | ⟨k, hk, h1, h2⟩
            · exact Or.inl h
            · exact Or.inr (Or.inl h)
            · refine Or.inr (Or.inr ⟨k, hk, by omega, ?_⟩)
              simp only [List.length_cons]
              omega
        | ok mv w3 tr2 =>
          rw [hrec] at hev2
          simp only [Run.trace, List.mem_append, List.mem_singleton] at hev2
          rcases hev2 with (hev2 | hev2) | hev2
          · rcases htr ev hev2 with h | h
            · exact Or.inl ⟨_, _, h⟩
            · exact Or.inr (Or.inl h)
          · exact Or.inr (Or.inr ⟨done + 1, hev2, by omega, by simp⟩)
          · have := ih w2 (done + 1) moved2 ev (by rw [hrec]; exact hev2)
            rcases this with h | h | ⟨k, hk, h1, h2⟩
            · exact Or.inl h
            · exact Or.inr (Or.inl h)
            · refine Or.inr (Or.inr ⟨k, hk, by omega, ?_⟩)
              simp only [List.length_cons]
              omega
      cases r with
      | some res => exact step (moved ++ [basename res]) hev
      | none => exact step moved hev

/-- When the loop finishes normally over a non-empty work list, its trace
reports the final progress value `done + cands.length`. -/
theorem processLoop_ok_last (cfg : Config) (env : Env) (total : Nat)
    (cands : List (Str × Str)) :
    ∀ w done moved mv w2 tr, cands ≠ [] →
      processLoop cfg env total cands w done moved = .ok mv w2 tr →
      Event.progressUpdate (done + cands.length) total ∈ tr := by
  induction cands with
  | nil =>
    intro w done moved mv w2 tr hne _
    exact absurd rfl hne
  | cons c rest ih =>
    intro w done moved mv w2 tr _ hok
    obtain ⟨p, d⟩ := c
    simp only [processLoop] at hok
    cases hsf : sort_file cfg env w p false (some d) with
    | exn e w2b trb =>
      rw [hsf] at hok
      exact Run.noConfusion hok
    | ok r w2b trb =>
      rw [hsf] at hok
      have step : ∀ moved2,
          (match processLoop cfg env total rest w2b (done + 1) moved2 with
            | Run.exn e w3 tr2 =>
              Run.exn (α := List Str) e w3
                (trb ++ [Event.progressUpdate (done + 1) total] ++ tr2)
            | Run.ok mv3 w3 tr2 =>
              Run.ok mv3 w3
                (trb ++ [Event.progressUpdate (done + 1) total] ++ tr2)) =
            Run.ok mv w2 tr →
          Event.progressUpdate (done + ((p, d) :: rest).length) total ∈ tr := by
        intro moved2 hok2
        cases hrec : processLoop cfg env total rest w2b (done + 1) moved2 with
        | exn e w3 tr2 =>
          rw [hrec] at hok2
          exact Run.noConfusion hok2
        | ok mv2 w3 tr2 =>
          rw [hrec] at hok2
          cases hok2
          by_cases hrest : rest = []
          · subst hrest
            simp only [processLoop] at hrec
            cases hrec
            simp
          · have := ih w2b (done + 1) moved2 _ _ _ hrest hrec
            have hlen : done + 1 + rest.length = done + (rest.length + 1) := by
              omega
            simp only [List.length_cons]
            rw [← hlen]
            simp [this]
      cases r with
      | some res => exact step (moved ++ [basename res]) hok
      | none => exact step moved hok

theorem scanCandidates_fst (cfg : Config) (env : Env) (w : World) :
    scanCandidates cfg env w
        (w.files.filter fun p => decide (dirOf p = cfg.downloads)) =
      (snapshotCandidates cfg env w, []) := by
  have h2 := scanCandidates_trace cfg env w
    (w.files.filter fun p => decide (dirOf p = cfg.downloads))
  exact Prod.ext rfl h2

/-- Every event a sweep body emits is a move log, a toast, the completion
signal, or a progress event carrying the snapshot total. -/
theorem sortFilesBody_events (cfg : Config) (env : Env) (w : World)
    (arrivals : List Str) :
    ∀ ev ∈ (sortFilesBody cfg env w arrivals).trace,
      (∃ n d, ev = .logMove n d) ∨ ev = .notified ∨ ev = .progressDone ∨
      ev = .progressBegin (snapshotTotal cfg env w) ∨
      ∃ k, ev = .progressUpdate k (snapshotTotal cfg env w) ∧
        k ≤ snapshotTotal cfg env w := by
  intro ev hev
  simp only [sortFilesBody] at hev
  by_cases hex : cfg.downloads ∈ w.files ∨ cfg.downloads ∈ w.dirs
  · rw [if_pos hex, scanCandidates_fst cfg env w] at hev
    by_cases h0 : (snapshotCandidates cfg env w, ([] : List Event)).1.length = 0
    · rw [if_pos h0] at hev
      simp [Run.trace] at hev
    · rw [if_neg h0] at hev
      cases hloop : processLoop cfg env
          (snapshotCandidates cfg env w, ([] : List Event)).1.length
          (snapshotCandidates cfg env w, ([] : List Event)).1
          ⟨arrivals ++ w.files, w.dirs⟩ 0 [] with
      | exn e w2 tr =>
        rw [hloop] at hev
        simp only [Run.trace, List.mem_append, List.mem_cons,
          List.mem_singleton, List.not_mem_nil, or_false, false_or] at hev
        rcases hev with (hev | hev) | hev
        · exact Or.inr (Or.inr (Or.inr (Or.inl hev)))
        · exact Or.inr (Or.inr (Or.inr (Or.inr ⟨0, hev, by omega⟩)))
        · have := processLoop_events cfg env _ _ ⟨arrivals ++ w.files, w.dirs⟩
            0 [] ev (by rw [hloop]; exact hev)
          rcases this with h | h | ⟨k, hk, _, h2⟩
          · exact Or.inl h
          · exact Or.inr (Or.inl h)
          · exact Or.inr (Or.inr (Or.inr (Or.inr ⟨k, hk, by
              simpa using h2⟩)))
      | ok moved w2 tr =>
        rw [hloop] at hev
        simp only [Run.trace, List.mem_append, List.mem_cons,
          List.mem_singleton, List.not_mem_nil, or_false, false_or] at hev
        rcases hev with (((hev | hev) | hev) | hev) | hev
        · exact Or.inr (Or.inr (Or.inr (Or.inl hev)))
        · exact Or.inr (Or.inr (Or.inr (Or.inr ⟨0, hev, by omega⟩)))
        · have := processLoop_events cfg env _ _ ⟨arrivals ++ w.files, w.dirs⟩
            0 [] ev (by rw [hloop]; exact hev)
          rcases this with h | h | ⟨k, hk, _, h2⟩
          · exact Or.inl h
          · exact Or.inr (Or.inl h)
          · exact Or.inr (Or.inr (Or.inr (Or.inr ⟨k, hk, by
              simpa using h2⟩)))
        · exact Or.inr (Or.inr (Or.inl hev))
        · by_cases hm : moved ≠ []
          · rw [if_pos hm] at hev
            rw [List.mem_singleton] at hev
            exact Or.inr (Or.inl hev)
          · rw [if_neg hm] at hev
            exact absurd hev (List.not_mem_nil ev)
  · rw [if_neg hex] at hev
    simp [Run.trace] at hev

/-- A normally-completing sweep over a non-empty snapshot went through the
loop, whose trace its own trace contains. -/
theorem sortFilesBody_ok_loop (cfg : Config) (env : Env) (w : World)
    (arrivals : List Str) (moved : List Str) (w2 : World) (tr : List Event)
    (hex : cfg.downloads ∈ w.files ∨ cfg.downloads ∈ w.dirs)
    (h0 : snapshotTotal cfg env w ≠ 0)
    (h : sortFilesBody cfg env w arrivals = .ok moved w2 tr) :
    ∃ tr2,
      processLoop cfg env (snapshotTotal cfg env w)
          (snapshotCandidates cfg env w) ⟨arrivals ++ w.files, w.dirs⟩ 0 [] =
        .ok moved w2 tr2 ∧
      ∀ ev ∈ tr2, ev ∈ tr := by
  simp only [sortFilesBody] at h
  rw [if_pos hex, scanCandidates_fst cfg env w] at h
  have h0b : ¬ (snapshotCandidates cfg env w, ([] : List Event)).1.length = 0 :=
    h0
  rw [if_neg h0b] at h
  cases hloop : processLoop cfg env
      (snapshotCandidates cfg env w, ([] : List Event)).1.length
      (snapshotCandidates cfg env w, ([] : List Event)).1
      ⟨arrivals ++ w.files, w.dirs⟩ 0 [] with
  | exn e w3 tr2 =>
    rw [hloop] at h
    exact Run.noConfusion h
  | ok mv w3 tr2 =>
    rw [hloop] at h
    cases h
    refine ⟨tr2, hloop, ?_⟩
    intro ev hev
    simp only [List.mem_append]
    exact Or.inl (Or.inl (Or.inr hev))

theorem sort_files_trace_cases (cfg : Config) (env : Env) (w : World)
    (arrivals : List Str) (ev : Event)
    (h : ev ∈ (sort_files cfg env w arrivals).2) :
    ev ∈ (sortFilesBody cfg env w arrivals).trace ∨
    ∃ e, ev = .logError e := by
  unfold sort_files at h
  cases hb : sortFilesBody cfg env w arrivals with
  | ok mv w2 tr =>
    rw [hb] at h
    exact Or.inl h
  | exn e w2 tr =>
    rw [hb] at h
    have h2 : ev ∈ tr ++ [Event.logError e] := h
    rw [List.mem_append, List.mem_singleton] at h2
    rcases h2 with h2 | h2
    · exact Or.inl h2
    · exact Or.inr ⟨e, h2⟩

/-!  Concrete fixtures used by the witnesses and counterexamples below:
a Downloads folder "dl", a Docs category for ".txt" (which deliberately
also lists the skipped ".tmp"), a Media category for ".jpg", and oracles
that either always succeed or fail one specific primitive. -/

def demoCfg : Config :=
  ⟨[("Docs", [str ".txt", str ".tmp"]), ("Media", [str ".jpg"])],
   [str ".tmp"], fun c => '/' :: c.data, true, str "dl"⟩

def demoEnv : Env := ⟨true, fun _ => none, fun _ => .ok true, fun _ _ => none⟩

def demoWorld : World :=
  ⟨[str "dl/a.txt", str "dl/b.txt", str "dl/c.txt"], [str "dl"]⟩

def mkdirsFailEnv : Env :=
  ⟨true, fun _ => some 7, fun _ => .ok true, fun _ _ => none⟩

def moveFailEnv : Env :=
  ⟨true, fun _ => none, fun _ => .ok true,
   fun s _ => if s = str "dl/a.txt" then some 9 else none⟩

def twoFileWorld : World := ⟨[str "dl/a.txt", str "dl/b.txt"], [str "dl"]⟩

def memeWorld : World := ⟨[str "dl/pic.jpg"], [str "dl"]⟩

def skipWorld : World := ⟨[str "dl/note.tmp"], [str "dl"]⟩

/-- C4: skip precedence — whenever the lowercased name's final suffix is
in skip_extensions, classification returns no destination with no prompt
(with or without ask_meme) and the mover returns None leaving the world
untouched, for every category table, including ones that also list the
same extension under a category. -/
theorem c4_skip_dominates (cfg : Config) (env : Env) (w : World) (path : Str)
    (notify : Bool) (pd : Option Str)
    (h : (splitext (pyLower (basename path))).2 ∈ cfg.skip) :
    resolve_destination cfg env w path true = (none, []) ∧
    resolve_destination cfg env w path false = (none, []) ∧
    sort_file cfg env w path notify pd = .ok none w [] := by
  have hskip : should_skip_by_extension cfg (basename path) = true := by
    unfold should_skip_by_extension
    exact decide_eq_true h
  refine ⟨?_, ?_, ?_⟩
  · simp only [resolve_destination]
    rw [if_pos (Or.inl hskip)]
  · simp only [resolve_destination]
    rw [if_pos (Or.inl hskip)]
  · simp only [sort_file]
    rw [if_pos (Or.inl hskip)]

/-- C4 witness: a ".tmp" file under a table that also lists ".tmp" in the
Docs category is classified to nothing and left in place by the mover. -/
theorem c4_skip_dominates_witness :
    resolve_destination demoCfg demoEnv skipWorld (str "dl/note.tmp") true =
      (none, []) ∧
    resolve_destination demoCfg demoEnv skipWorld (str "dl/note.tmp") false =
      (none, []) ∧
    sort_file demoCfg demoEnv skipWorld (str "dl/note.tmp") true
      (some (str "/Docs")) = .ok none skipWorld [] :=
  c4_skip_dominates demoCfg demoEnv skipWorld (str "dl/note.tmp") true
    (some (str "/Docs")) (by decide)

/-- C6: a batch sweep never invokes the meme prompt: its trace contains no
prompt event, classification with ask_meme = False emits no event, and a
classified candidate goes to its first matching category's configured
folder — a Media match goes to paths["Media"], never to the Memes
folder. -/
theorem c6_batch_never_prompts (cfg : Config) (env : Env) (w : World)
    (arrivals : List Str) :
    Event.prompted ∉ (sort_files cfg env w arrivals).2 ∧
    (∀ path, (resolve_destination cfg env w path false).2 = []) ∧
    (∀ path q,
      should_skip_by_extension cfg (basename path) = false →
      path ∈ w.files →
      cfg.file_types.find?
          (fun p => decide (pyLower (splitext (basename path)).2 ∈ p.2)) =
        some q →
      resolve_destination cfg env w path false =
        (some (cfg.paths q.1), [])) := by
  refine ⟨?_, fun path => resolve_destination_noask_snd cfg env w path, ?_⟩
  · intro hmem
    rcases sort_files_trace_cases cfg env w arrivals _ hmem with h | ⟨e, h⟩
    · rcases sortFilesBody_events cfg env w arrivals _ h with
        ⟨n, d, h2⟩ | h2 | h2 | h2 | ⟨k, h2, _⟩ <;> exact Event.noConfusion h2
    · exact Event.noConfusion h
  · intro path q hskip hfile hfind
    have hcond : ¬ (should_skip_by_extension cfg (basename path) = true ∨
        path ∉ w.files) := by
      rintro (h | h)
      · rw [hskip] at h
        exact Bool.false_ne_true h
      · exact h hfile
    rw [resolve_destination_noask, if_neg hcond, hfind]

/-- C6 witness: with the prompt feature enabled and an (unused) prompt
oracle that would answer yes, a batch sweep over a jpg neither prompts
nor routes it to Memes: it resolves to the Media folder. -/
theorem c6_batch_never_prompts_witness :
    Event.prompted ∉ (sort_files demoCfg demoEnv memeWorld []).2 ∧
    resolve_destination demoCfg demoEnv memeWorld (str "dl/pic.jpg") false =
      (some (demoCfg.paths "Media"), []) :=
  ⟨(c6_batch_never_prompts demoCfg demoEnv memeWorld []).1,
   (c6_batch_never_prompts demoCfg demoEnv memeWorld []).2.2
     (str "dl/pic.jpg") ("Media", [str ".jpg"]) (by decide) (by decide)
     (by decide)⟩

/-- C5: the progress denominator of a sweep is the candidate count of the
scan-time snapshot: no progress event of the sweep carries any other
total, no reported done exceeds it — whatever files arrive after the scan
— and a normally completed non-empty sweep reports done = total. -/
theorem c5_batch_total_fixed (cfg : Config) (env : Env) (w : World)
    (arrivals : List Str) :
    (∀ t, Event.progressBegin t ∈ (sort_files cfg env w arrivals).2 →
      t = snapshotTotal cfg env w) ∧
    (∀ k t, Event.progressUpdate k t ∈ (sort_files cfg env w arrivals).2 →
      t = snapshotTotal cfg env w ∧ k ≤ snapshotTotal cfg env w) ∧
    (∀ moved w2 tr,
      cfg.downloads ∈ w.files ∨ cfg.downloads ∈ w.dirs →
      snapshotTotal cfg env w ≠ 0 →
      sortFilesBody cfg env w arrivals = .ok moved w2 tr →
      Event.progressUpdate (snapshotTotal cfg env w)
        (snapshotTotal cfg env w) ∈ tr) := by
  refine ⟨?_, ?_, ?_⟩
  · intro t ht
    rcases sort_files_trace_cases cfg env w arrivals _ ht with h | ⟨e, h⟩
    · rcases sortFilesBody_events cfg env w arrivals _ h with
        ⟨n, d, h2⟩ | h2 | h2 | h2 | ⟨k, h2, _⟩
      · exact Event.noConfusion h2
      · exact Event.noConfusion h2
      · exact Event.noConfusion h2
      · injection h2
      · exact Event.noConfusion h2
    · exact Event.noConfusion h
  · intro k t ht
    rcases sort_files_trace_cases cfg env w arrivals _ ht with h | ⟨e, h⟩
    · rcases sortFilesBody_events cfg env w arrivals _ h with
        ⟨n, d, h2⟩ | h2 | h2 | h2 | ⟨k2, h2, hle⟩
      · exact Event.noConfusion h2
      · exact Event.noConfusion h2
      · exact Event.noConfusion h2
      · exact Event.noConfusion h2
      · injection h2 with hk ht2
        subst hk
        subst ht2
        exact ⟨rfl, hle⟩
    · exact Event.noConfusion h
  · intro moved w2 tr hex h0 h
    obtain ⟨tr2, hloop, hsub⟩ :=
      sortFilesBody_ok_loop cfg env w arrivals moved w2 tr hex h0 h
    have hne : snapshotCandidates cfg env w ≠ [] := by
      intro hnil
      exact h0 (by unfold snapshotTotal; rw [hnil]; rfl)
    have := processLoop_ok_last cfg env (snapshotTotal cfg env w)
      (snapshotCandidates cfg env w) ⟨arrivals ++ w.files, w.dirs⟩ 0 []
      moved w2 tr2 hne hloop
    rw [Nat.zero_add] at this
    exact hsub _ this

/-- C5 witness: a sweep that scanned three eligible files while a fourth
arrived mid-sweep still begins with total 3, ends reporting 3/3, and the
snapshot total the theorem pins every event to is 3, not 4. -/
theorem c5_batch_total_fixed_witness :
    Event.progressBegin 3 ∈
      (sort_files demoCfg demoEnv demoWorld [str "dl/late.txt"]).2 ∧
    Event.progressUpdate 3 3 ∈
      (sort_files demoCfg demoEnv demoWorld [str "dl/late.txt"]).2 ∧
    3 = snapshotTotal demoCfg demoEnv demoWorld :=
  ⟨by decide, by decide,
   (c5_batch_total_fixed demoCfg demoEnv demoWorld [str "dl/late.txt"]).1 3
     (by decide)⟩

/-- C1 counterexample: sort_file does raise past its boundary — with
os.makedirs failing on an otherwise eligible file, the mover's outcome is
an escaped exception, not a contained failure result. -/
theorem c1_counterexample :
    Run.isExn (sort_file demoCfg mkdirsFailEnv demoWorld (str "dl/a.txt")
      false (some (str "/Docs"))) = true := by decide

/-- C1 (amended): sort_file performs no exception handling: an I/O error
during destination-directory creation, stability polling, or the move
escapes the mover as an exception originating in one of those three
primitives, leaving the file set unchanged (collision-name computation
performs no fallible I/O in this code); the batch coordinator catches any
such exception, logs it and returns normally, so the batch caller keeps
running — the live-event handler invokes the mover unguarded. -/
theorem c1_mover_errors_propagate (cfg : Config) (env : Env) (w : World)
    (path : Str) (notify : Bool) (pd : Option Str) :
    (∀ e w2 tr, sort_file cfg env w path notify pd = .exn e w2 tr →
      w2.files = w.files ∧
      ((∃ d2, env.mkdirsErr d2 = some e) ∨
       env.stabilityResult path = .error e ∨
       (∃ dst, env.moveErr path dst = some e))) ∧
    (∀ arrivals e w2 tr,
      sortFilesBody cfg env w arrivals = .exn e w2 tr →
      sort_files cfg env w arrivals = (w2, tr ++ [.logError e])) := by
  refine ⟨fun e w2 tr h =>
    sort_file_exn_cases cfg env w path notify pd e w2 tr h, ?_⟩
  intro arrivals e w2 tr h
  unfold sort_files
  rw [h]

/-- C1 witness: the amended claim applied to the concrete makedirs
failure, with the escaped-exception hypothesis discharged by running the
mover. -/
theorem c1_mover_errors_propagate_witness :
    demoWorld.files = demoWorld.files ∧
    ((∃ d2, mkdirsFailEnv.mkdirsErr d2 = some 7) ∨
     mkdirsFailEnv.stabilityResult (str "dl/a.txt") = .error 7 ∨
     (∃ dst, mkdirsFailEnv.moveErr (str "dl/a.txt") dst = some 7)) :=
  (c1_mover_errors_propagate demoCfg mkdirsFailEnv demoWorld (str "dl/a.txt")
    false (some (str "/Docs"))).1 7 demoWorld [] (by decide)

/-- C3 counterexample: two eligible candidates, the first one's move
raises.  The failure is logged, but the sweep does not continue: the
second candidate is never reported, never moved and still sits in the
source directory — although its own move would have succeeded — and the
main.py coordinator exits the process. -/
theorem c3_counterexample :
    Event.logError 9 ∈ (sort_files demoCfg moveFailEnv twoFileWorld []).2 ∧
    Event.progressUpdate 2 2 ∉
      (sort_files demoCfg moveFailEnv twoFileWorld []).2 ∧
    Event.logMove (str "b.txt") (str "/Docs") ∉
      (sort_files demoCfg moveFailEnv twoFileWorld []).2 ∧
    str "dl/b.txt" ∈ (sort_files demoCfg moveFailEnv twoFileWorld []).1.files ∧
    moveFailEnv.moveErr (str "dl/b.txt") (str "/Docs/b.txt") = none ∧
    (sort_files_main true demoCfg moveFailEnv twoFileWorld []).2.2 =
      SweepExit.exited := by decide

/-- C3 (amended): a failure while processing a candidate is caught at the
sweep boundary, not per candidate: sorter.py's coordinator logs it and
returns normally with the remainder of the work list abandoned (the loop
stops at the first raising candidate), while main.py's coordinator logs
it and then calls sys.exit(1); only a normal completion returns with the
process untouched in both. -/
theorem c3_sweep_aborts_on_failure (cfg : Config) (env : Env) (w : World)
    (arrivals : List Str) :
    (∀ e w2 tr, sortFilesBody cfg env w arrivals = .exn e w2 tr →
      sort_files cfg env w arrivals = (w2, tr ++ [.logError e]) ∧
      sort_files_main true cfg env w arrivals =
        (w2, tr ++ [.logError e], .exited)) ∧
    (∀ total p d rest w0 done moved e w2 tr,
      sort_file cfg env w0 p false (some d) = .exn e w2 tr →
      processLoop cfg env total ((p, d) :: rest) w0 done moved =
        .exn e w2 tr) ∧
    (∀ moved w2 tr, sortFilesBody cfg env w arrivals = .ok moved w2 tr →
      sort_files_main true cfg env w arrivals = (w2, tr, .returned)) := by
  refine ⟨?_, ?_, ?_⟩
  · intro e w2 tr h
    constructor
    · unfold sort_files
      rw [h]
    · unfold sort_files_main
      rw [if_pos rfl, h]
  · intro total p d rest w0 done moved e w2 tr hsf
    simp only [processLoop]
    rw [hsf]
  · intro moved w2 tr h
    unfold sort_files_main
    rw [if_pos rfl, h]

/-- C3 witness: the amended claim applied to the concrete failing sweep,
with the body's exception outcome discharged by running the sweep. -/
theorem c3_sweep_aborts_on_failure_witness :
    sort_files demoCfg moveFailEnv twoFileWorld [] =
      (⟨[str "dl/a.txt", str "dl/b.txt"], [str "/Docs", str "dl"]⟩,
       [Event.progressBegin 2, Event.progressUpdate 0 2] ++
         [Event.logError 9]) ∧
    sort_files_main true demoCfg moveFailEnv twoFileWorld [] =
      (⟨[str "dl/a.txt", str "dl/b.txt"], [str "/Docs", str "dl"]⟩,
       [Event.progressBegin 2, Event.progressUpdate 0 2] ++
         [Event.logError 9], .exited) :=
  (c3_sweep_aborts_on_failure demoCfg moveFailEnv twoFileWorld []).1 9
    ⟨[str "dl/a.txt", str "dl/b.txt"], [str "/Docs", str "dl"]⟩
    [Event.progressBegin 2, Event.progressUpdate 0 2] (by decide)

end AutoFileSort
